import Mathlib

namespace EtcdAdapter

/-! ## Definitions (shallow embedding of the source) -/

/-- `Placeholder` represents the NULL value in a Casbin rule
(constant `Placeholder = "_"` in the source). -/
def Placeholder : String := "_"

/-- `DefaultKey` is the root path in etcd when none is provided. -/
def DefaultKey : String := "casbin_policy"

/-- The stored record for one rule (struct `CasbinRule`): the composite key,
the policy type and six field slots (empty string when absent). -/
structure CasbinRule where
  Key : String
  PType : String
  V0 : String
  V1 : String
  V2 : String
  V3 : String
  V4 : String
  V5 : String
deriving DecidableEq

/-- The adapter configuration needed by the pure logic: its namespace `key`
(field `key` of struct `Adapter`; endpoints and auth are connection plumbing). -/
structure Adapter where
  key : String
deriving DecidableEq

/-- `getRootKey` returns `fmt.Sprintf("/%s", a.key)`. -/
def getRootKey (a : Adapter) : String := "/" ++ a.key

/-- `constructPath` returns `fmt.Sprintf("/%s/%s", a.key, key)`. -/
def constructPath (a : Adapter) (key : String) : String :=
  "/" ++ a.key ++ "/" ++ key

/-- Go's `strings.Join(elems, sep)`: empty for no elements, otherwise the
first element followed by `sep ++ elem` for each further element.  Stated by
structural recursion; `joinSep_eq_foldl` below shows it agrees with the
accumulator loop Go uses. -/
def joinSep (sep : String) : List String → String
  | [] => ""
  | [x] => x
  | x :: y :: xs => x ++ sep ++ joinSep sep (y :: xs)

/-- `convertRule(ptype, line)` from the source: fills slots `V0..V5` from the
first six entries of `line`, collects `ptype` and those entries into `policys`,
pads `policys` with `6 - len(line)` placeholders (no padding when
`len(line) ≥ 6`, matching the Go loop `for i := 0; i < 6-length; i++` which
does not run for a negative bound), and joins them with `"::"` into the key. -/
def convertRule (ptype : String) (line : List String) : CasbinRule :=
  let length := line.length
  let policys : List String :=
    [ptype]
      ++ (if 0 < length then [line.getD 0 ""] else [])
      ++ (if 1 < length then [line.getD 1 ""] else [])
      ++ (if 2 < length then [line.getD 2 ""] else [])
      ++ (if 3 < length then [line.getD 3 ""] else [])
      ++ (if 4 < length then [line.getD 4 ""] else [])
      ++ (if 5 < length then [line.getD 5 ""] else [])
      ++ List.replicate (6 - length) Placeholder
  { Key := joinSep "::" policys
    PType := ptype
    V0 := if 0 < length then line.getD 0 "" else ""
    V1 := if 1 < length then line.getD 1 "" else ""
    V2 := if 2 < length then line.getD 2 "" else ""
    V3 := if 3 < length then line.getD 3 "" else ""
    V4 := if 4 < length then line.getD 4 ""  else ""
    V5 := if 5 < length then line.getD 5 "" else "" }

/-- `loadPolicy`'s line reconstruction: the type followed by `", " ++ Vi` for
every non-empty slot, each of the six slots tested independently. -/
def loadPolicyLine (rule : CasbinRule) : String :=
  let lineText := rule.PType
  let lineText := if rule.V0 ≠ "" then lineText ++ ", " ++ rule.V0 else lineText
  let lineText := if rule.V1 ≠ "" then lineText ++ ", " ++ rule.V1 else lineText
  let lineText := if rule.V2 ≠ "" then lineText ++ ", " ++ rule.V2 else lineText
  let lineText := if rule.V3 ≠ "" then lineText ++ ", " ++ rule.V3 else lineText
  let lineText := if rule.V4 ≠ "" then lineText ++ ", " ++ rule.V4 else lineText
  let lineText := if rule.V5 ≠ "" then lineText ++ ", " ++ rule.V5 else lineText
  lineText

/-- The segment list of a composite key, after the type: the first six fields
followed by placeholder padding up to six slots. -/
def padTo6 (line : List String) : List String :=
  line.take 6 ++ List.replicate (6 - line.length) Placeholder

/-- Character-level form of `joinSep "::"` on a non-empty segment list. -/
def cjoin : List (List Char) → List Char
  | [] => []
  | [u] => u
  | u :: v :: r => u ++ ':' :: ':' :: cjoin (v :: r)

/-- The optional `", " ++ v` contribution of one slot to a reconstructed line. -/
def optPart (v : String) : String := if v ≠ "" then ", " ++ v else ""

/-- Concatenation of the slot contributions. -/
def partsCat : List String → String
  | [] => ""
  | v :: vs => optPart v ++ partsCat vs

/-- One atom of the regular-expression fragment the adapter generates: a
literal character or `.` (any character). -/
inductive RAtom
  | ch (c : Char)
  | dot
deriving DecidableEq

/-- A pattern piece: a single atom or a starred atom (e.g. `.*`). -/
inductive RPiece
  | once (a : RAtom)
  | star (a : RAtom)
deriving DecidableEq

/-- Parse the regex fragment the adapter constructs: `.` is the any-character
metacharacter, a following `*` stars the preceding atom, every other
character is a literal.  This models Go's `regexp` package on exactly the
patterns `constructFilter` produces (literal runs interleaved with `.*`),
including patterns whose injected values contain `.`. -/
def parseRegex : List Char → List RPiece
  | [] => []
  | c :: '*' :: rest =>
      RPiece.star (if c = '.' then RAtom.dot else RAtom.ch c) :: parseRegex rest
  | c :: rest =>
      RPiece.once (if c = '.' then RAtom.dot else RAtom.ch c) :: parseRegex rest

def matchAtom : RAtom → Char → Bool
  | RAtom.dot, _ => true
  | RAtom.ch c, d => c = d

/-- Can the pattern match the empty string? -/
def nullable : List RPiece → Bool
  | [] => true
  | RPiece.once _ :: _ => false
  | RPiece.star _ :: ps => nullable ps

/-- All residual patterns after the pattern consumes the character `c`
(Brzozowski-style derivative of the piece sequence). -/
def derivs : List RPiece → Char → List (List RPiece)
  | [], _ => []
  | RPiece.once a :: ps, c => if matchAtom a c then [ps] else []
  | RPiece.star a :: ps, c =>
      (if matchAtom a c then [RPiece.star a :: ps] else []) ++ derivs ps c

/-- Does the pattern match some prefix of the character list?  (A Go
`regexp.MatchString` match is unanchored at the end.)  Stated with
derivatives so that it is structurally recursive; it computes exactly
prefix-membership in the pattern's regular language. -/
def matchHere : List RPiece → List Char → Bool
  | ps, [] => nullable ps
  | ps, c :: cs => nullable ps || (derivs ps c).any (fun ps2 => matchHere ps2 cs)

/-- The pattern may match starting at any position (a Go `regexp.MatchString`
match is unanchored at the start). -/
def matchSubFrom (ps : List RPiece) : List Char → Bool
  | [] => matchHere ps []
  | c :: cs => matchHere ps (c :: cs) || matchSubFrom ps cs

/-- `regexp.MatchString(pattern, s)` for the generated fragment. -/
def regexpMatchString (pattern s : String) : Bool :=
  matchSubFrom (parseRegex pattern.data) s.data

/-- `constructFilter` from the source: start from `/key/PType` (or `/key/.*`
when the type is empty) and append `::Vi`, or `::.*` for an empty slot, for
each of the six slots. -/
def constructFilter (a : Adapter) (rule : CasbinRule) : String :=
  let filter := if rule.PType ≠ "" then "/" ++ a.key ++ "/" ++ rule.PType
    else "/" ++ a.key ++ "/.*"
  let filter := if rule.V0 ≠ "" then filter ++ "::" ++ rule.V0 else filter ++ "::.*"
  let filter := if rule.V1 ≠ "" then filter ++ "::" ++ rule.V1 else filter ++ "::.*"
  let filter := if rule.V2 ≠ "" then filter ++ "::" ++ rule.V2 else filter ++ "::.*"
  let filter := if rule.V3 ≠ "" then filter ++ "::" ++ rule.V3 else filter ++ "::.*"
  let filter := if rule.V4 ≠ "" then filter ++ "::" ++ rule.V4 else filter ++ "::.*"
  let filter := if rule.V5 ≠ "" then filter ++ "::" ++ rule.V5 else filter ++ "::.*"
  filter

/-- The partial rule built inside `RemoveFilteredPolicy(sec, ptype,
fieldIndex, fieldValues...)`: slot `i` receives `fieldValues[i-fieldIndex]`
when `fieldIndex ≤ i < fieldIndex + len(fieldValues)` (Go `int` arithmetic,
so `fieldIndex` is an integer) and stays empty otherwise. -/
def filterRuleOf (ptype : String) (fieldIndex : Int) (fieldValues : List String) :
    CasbinRule :=
  { Key := ""
    PType := ptype
    V0 := if fieldIndex ≤ 0 ∧ 0 < fieldIndex + (fieldValues.length : Int) then
        fieldValues.getD (0 - fieldIndex).toNat "" else ""
    V1 := if fieldIndex ≤ 1 ∧ 1 < fieldIndex + (fieldValues.length : Int) then
        fieldValues.getD (1 - fieldIndex).toNat "" else ""
    V2 := if fieldIndex ≤ 2 ∧ 2 < fieldIndex + (fieldValues.length : Int) then
        fieldValues.getD (2 - fieldIndex).toNat "" else ""
    V3 := if fieldIndex ≤ 3 ∧ 3 < fieldIndex + (fieldValues.length : Int) then
        fieldValues.getD (3 - fieldIndex).toNat "" else ""
    V4 := if fieldIndex ≤ 4 ∧ 4 < fieldIndex + (fieldValues.length : Int) then
        fieldValues.getD (4 - fieldIndex).toNat "" else ""
    V5 := if fieldIndex ≤ 5 ∧ 5 < fieldIndex + (fieldValues.length : Int) then
        fieldValues.getD (5 - fieldIndex).toNat "" else "" }

/-- The filter string `RemoveFilteredPolicy` hands to `removeFilteredPolicy`
(`sec` is accepted and ignored, as in the source). -/
def removeFilteredPolicyFilter (a : Adapter) (sec ptype : String)
    (fieldIndex : Int) (fieldValues : List String) : String :=
  constructFilter a (filterRuleOf ptype fieldIndex fieldValues)

/-- `removeFilteredPolicy`: enumerate the stored keys under the namespace and
collect (for deletion) exactly those the regex matches, in enumeration
order. -/
def removeFilteredKeys (filter : String) (keys : List String) : List String :=
  keys.filter (fun k => regexpMatchString filter k)

/-- The pattern the spec describes for filtered removal, built positionally:
the namespace, then the type (wildcard when empty), then for each slot the
supplied value when the index lies in the specified window and that value is
non-empty, otherwise `.*`. -/
def specFilterOf (a : Adapter) (ptype : String) (fieldIndex : Int)
    (fieldValues : List String) : String :=
  joinSep "::"
    (("/" ++ a.key ++ "/" ++ (if ptype = "" then ".*" else ptype)) ::
      ([0, 1, 2, 3, 4, 5] : List Int).map (fun i =>
        if fieldIndex ≤ i ∧ i < fieldIndex + (fieldValues.length : Int) then
          (if fieldValues.getD (i - fieldIndex).toNat "" = "" then ".*"
            else fieldValues.getD (i - fieldIndex).toNat "")
        else ".*"))

/-- Byte-level key prefix test, as used by etcd's `WithPrefix()` range
options: does `s` start with `p`? -/
def strHasPre (p s : String) : Bool := p.data.isPrefixOf s.data

/-- The etcd keyspace as the adapter sees it: a partial map from full key
paths to stored rule records.  The stored bytes are `json.Marshal(rule)`;
the struct has no `omitempty` tags, so every field is always emitted and the
marshalled bytes are in bijection with the record — we therefore store the
record itself. -/
def Store : Type := String → Option CasbinRule

def emptyStore : Store := fun _ => none

/-- A single-key `Put`. -/
def Store.put (s : Store) (k : String) (r : CasbinRule) : Store :=
  fun x => if x = k then some r else s x

/-- A single-key `Delete`. -/
def Store.del (s : Store) (k : String) : Store :=
  fun x => if x = k then none else s x

/-- A range `Delete(root, WithPrefix())`, as issued by `destroy`: removes
every key that starts with `p`. -/
def Store.delRange (s : Store) (p : String) : Store :=
  fun x => if strHasPre p x then none else s x

/-- The in-memory Casbin model as `SavePolicy` consumes it: the `"p"` section
and the `"g"` section, each a list of `(ptype, ast.Policy)` pairs. -/
def Model : Type :=
  List (String × List (List String)) × List (String × List (List String))

/-- The rule records `SavePolicy` collects: `convertRule` applied to every
line of every ptype of the `"p"` section, then of the `"g"` section. -/
def rulesOf (m : Model) : List CasbinRule :=
  (m.1.map (fun pa => pa.2.map (convertRule pa.1))).flatten
    ++ (m.2.map (fun pa => pa.2.map (convertRule pa.1))).flatten

/-- `savePolicy`'s effect on the keyspace: one `Put` per rule, in order, at
`constructPath(rule.Key)`. -/
def putAll (a : Adapter) (rules : List CasbinRule) (s : Store) : Store :=
  rules.foldl (fun st r => st.put (constructPath a r.Key) r) s

/-- `SavePolicy`'s effect on the keyspace: `destroy` (range delete under the
root key), then a `Put` for every rule of the model. -/
def SavePolicyStore (a : Adapter) (m : Model) (s : Store) : Store :=
  putAll a (rulesOf m) (s.delRange (getRootKey a))

/-- Fault injection for the external store: the error (if any) returned by
the bulk range delete, and the error (if any) each `Put` returns. -/
structure StoreFaults where
  delRangeErr : Option String
  putErr : String → CasbinRule → Option String

/-- `savePolicy(rules)`: puts each rule in order and returns the first `Put`
error, or success. -/
def savePolicyWith (f : StoreFaults) (a : Adapter) (rules : List CasbinRule) :
    Option String :=
  rules.foldl (fun acc r =>
    match acc with
    | some e => some e
    | none => f.putErr (constructPath a r.Key) r) none

/-- The error result of `SavePolicy`: the source calls `a.destroy()` as a
bare statement, *discarding* the error it returns, and then returns
`a.savePolicy(rules)` — so the range-delete error never reaches the
caller. -/
def SavePolicyResult (f : StoreFaults) (a : Adapter) (m : Model) : Option String :=
  let _destroyErr := f.delRangeErr
  savePolicyWith f a (rulesOf m)

/-- The full store key `AddPolicy(sec, ptype, line)` writes to. -/
def addPolicyPath (a : Adapter) (ptype : String) (line : List String) : String :=
  constructPath a (convertRule ptype line).Key

/-- The full store key `RemovePolicy(sec, ptype, line)` deletes. -/
def removePolicyPath (a : Adapter) (ptype : String) (line : List String) : String :=
  constructPath a (convertRule ptype line).Key

/-- `AddPolicy`'s effect on the keyspace: a single `Put` of the converted
rule (`sec` is accepted and ignored, as in the source). -/
def AddPolicy (a : Adapter) (sec ptype : String) (line : List String)
    (s : Store) : Store :=
  s.put (addPolicyPath a ptype line) (convertRule ptype line)

/-- `RemovePolicy`'s effect on the keyspace: a single `Delete` of the same
path. -/
def RemovePolicy (a : Adapter) (sec ptype : String) (line : List String)
    (s : Store) : Store :=
  s.del (removePolicyPath a ptype line)

/-- One stored value as decoded JSON: `none` marks a field absent from the
JSON object, `some v` a field present with value `v`. -/
structure JsonRule where
  key : Option String
  ptype : Option String
  v0 : Option String
  v1 : Option String
  v2 : Option String
  v3 : Option String
  v4 : Option String
  v5 : Option String
deriving DecidableEq

/-- Go's `json.Unmarshal(bytes, &rule)` into an already-populated struct:
fields present in the JSON overwrite the struct's fields, absent fields keep
whatever value the struct already held. -/
def unmarshalInto (prev : CasbinRule) (j : JsonRule) : CasbinRule :=
  { Key := j.key.getD prev.Key
    PType := j.ptype.getD prev.PType
    V0 := j.v0.getD prev.V0
    V1 := j.v1.getD prev.V1
    V2 := j.v2.getD prev.V2
    V3 := j.v3.getD prev.V3
    V4 := j.v4.getD prev.V4
    V5 := j.v5.getD prev.V5 }

/-- The zero value of `CasbinRule` (`var rule CasbinRule`). -/
def zeroRule : CasbinRule := ⟨"", "", "", "", "", "", "", ""⟩

/-- `LoadPolicy` on a successful range read whose values all parse as JSON
objects (a value that fails to parse aborts the load and is outside the
claims considered here): errors when the namespace holds no entries;
otherwise unmarshals each value *into the single `rule` variable declared
once before the loop* and feeds the reconstructed line of the resulting
record to the model.  Returns the list of fed lines in order. -/
def LoadPolicy (kvs : List JsonRule) : Except String (List String) :=
  if kvs.length = 0 then
    Except.error "there is no policy in ETCD for the moment"
  else
    Except.ok
      (kvs.foldl
        (fun st j =>
          let rule := unmarshalInto st.1 j
          (rule, st.2 ++ [loadPolicyLine rule]))
        (zeroRule, ([] : List String))).2

/-! ## Theorems -/

theorem joinSep_eq_foldl (sep : String) (x : String) (xs : List String) :
    joinSep sep (x :: xs) = xs.foldl (fun acc y => acc ++ sep ++ y) x := by
  induction xs generalizing x with
  | nil => rfl
  | cons y ys ih =>
    have h : joinSep sep ((x ++ sep ++ y) :: ys) = x ++ sep ++ joinSep sep (y :: ys) := by
      cases ys with
      | nil => rfl
      | cons z zs => simp [joinSep, String.append_assoc]
    calc joinSep sep (x :: y :: ys) = x ++ sep ++ joinSep sep (y :: ys) := by rw [joinSep]
    _ = joinSep sep ((x ++ sep ++ y) :: ys) := h.symm
    _ = List.foldl (fun acc z => acc ++ sep ++ z) (x ++ sep ++ y) ys := ih (x ++ sep ++ y)
    _ = List.foldl (fun acc z => acc ++ sep ++ z) x (y :: ys) := rfl

example : (convertRule "p" ["alice", "data1", "read"]).Key
    = "p::alice::data1::read::_::_::_" := by decide

example : loadPolicyLine (convertRule "p" ["alice", "data1", "read"])
    = "p, alice, data1, read" := by decide

@[simp] theorem padTo6_length (l : List String) : (padTo6 l).length = 6 := by
  simp only [padTo6, List.length_append, List.length_take, List.length_replicate]
  omega

theorem convertRule_key_eq (t : String) (l : List String) :
    (convertRule t l).Key = joinSep "::" (t :: padTo6 l) := by
  rcases l with _ | ⟨a, _ | ⟨b, _ | ⟨c, _ | ⟨d, _ | ⟨e, _ | ⟨f, rest⟩⟩⟩⟩⟩⟩
  · rfl
  · rfl
  · rfl
  · rfl
  · rfl
  · rfl
  · simp only [convertRule, padTo6, List.length_cons]
    rw [if_pos (by omega), if_pos (by omega), if_pos (by omega), if_pos (by omega),
      if_pos (by omega), if_pos (by omega)]
    have h6 : 6 - (rest.length + 1 + 1 + 1 + 1 + 1 + 1) = 0 := by omega
    simp [h6, List.getD, List.take]

theorem joinSep_data (x : String) (xs : List String) :
    (joinSep "::" (x :: xs)).data = cjoin ((x :: xs).map String.data) := by
  induction xs generalizing x with
  | nil => rfl
  | cons y ys ih =>
    have hsep : ("::" : String).data = [':', ':'] := rfl
    show (x ++ "::" ++ joinSep "::" (y :: ys)).data = _
    rw [String.data_append, String.data_append, ih y, hsep]
    simp [cjoin]

/-- Peeling a colon-free chunk off the front of a string that continues with a
colon determines the chunk. -/
theorem colonFree_append_inj :
    ∀ (u1 u2 a b : List Char), ':' ∉ u1 → ':' ∉ u2 →
      u1 ++ ':' :: a = u2 ++ ':' :: b → u1 = u2 ∧ a = b := by
  intro u1
  induction u1 with
  | nil =>
    intro u2 a b _ h2 h
    cases u2 with
    | nil => simpa using h
    | cons c cs =>
      simp only [List.nil_append, List.cons_append, List.cons.injEq] at h
      exact absurd (h.1 ▸ List.mem_cons_self c cs) h2
  | cons c cs ih =>
    intro u2 a b h1 h2 h
    cases u2 with
    | nil =>
      simp only [List.cons_append, List.nil_append, List.cons.injEq] at h
      exact absurd (h.1 ▸ List.mem_cons_self c cs) h1
    | cons d ds =>
      simp only [List.cons_append, List.cons.injEq] at h
      obtain ⟨hcd, htail⟩ := h
      have := ih ds a b (fun hm => h1 (List.mem_cons_of_mem c hm))
        (fun hm => h2 (List.mem_cons_of_mem d hm)) htail
      exact ⟨by rw [hcd, this.1], this.2⟩

theorem cjoin_inj :
    ∀ (xs ys : List (List Char)), xs.length = ys.length →
      (∀ u ∈ xs, ':' ∉ u) → (∀ u ∈ ys, ':' ∉ u) →
      cjoin xs = cjoin ys → xs = ys := by
  intro xs
  induction xs with
  | nil =>
    intro ys hlen _ _ _
    exact (List.length_eq_zero.mp hlen.symm).symm ▸ rfl
  | cons u us ih =>
    intro ys hlen hxs hys hj
    cases ys with
    | nil => simp at hlen
    | cons v vs =>
      cases us with
      | nil =>
        cases vs with
        | nil => simpa [cjoin] using hj
        | cons w ws => simp at hlen
      | cons u2 ur =>
        cases vs with
        | nil => simp at hlen
        | cons v2 vr =>
          simp only [cjoin] at hj
          have hu : ':' ∉ u := hxs u (List.mem_cons_self u _)
          have hv : ':' ∉ v := hys v (List.mem_cons_self v _)
          obtain ⟨huv, htail⟩ := colonFree_append_inj u v _ _ hu hv hj
          have htail' : cjoin (u2 :: ur) = cjoin (v2 :: vr) := by
            simpa using htail
          have := ih (v2 :: vr) (by simpa using hlen)
            (fun w hw => hxs w (List.mem_cons_of_mem u hw))
            (fun w hw => hys w (List.mem_cons_of_mem v hw)) htail'
          rw [huv, this]

/-- Stripping the placeholder padding recovers the field list when no field is
itself the placeholder. -/
theorem unpad_inj :
    ∀ (N : Nat) (l1 l2 : List String), l1.length ≤ N → l2.length ≤ N →
      Placeholder ∉ l1 → Placeholder ∉ l2 →
      l1 ++ List.replicate (N - l1.length) Placeholder
        = l2 ++ List.replicate (N - l2.length) Placeholder →
      l1 = l2 := by
  intro N
  induction N with
  | zero =>
    intro l1 l2 h1 h2 _ _ _
    rw [List.length_eq_zero.mp (Nat.le_zero.mp h1), List.length_eq_zero.mp (Nat.le_zero.mp h2)]
  | succ n ih =>
    intro l1 l2 h1 h2 hp1 hp2 h
    cases l1 with
    | nil =>
      cases l2 with
      | nil => rfl
      | cons b bs =>
        exfalso
        simp only [List.nil_append, List.length_nil, Nat.sub_zero] at h
        have hb : b ∈ List.replicate (n + 1) Placeholder := by
          rw [h]; exact List.mem_append_left _ (List.mem_cons_self b bs)
        exact hp2 (List.eq_of_mem_replicate hb ▸ List.mem_cons_self b bs)
    | cons a as =>
      cases l2 with
      | nil =>
        exfalso
        simp only [List.nil_append, List.length_nil, Nat.sub_zero] at h
        have ha : a ∈ List.replicate (n + 1) Placeholder := by
          rw [← h]; exact List.mem_append_left _ (List.mem_cons_self a as)
        exact hp1 (List.eq_of_mem_replicate ha ▸ List.mem_cons_self a as)
      | cons b bs =>
        simp only [List.cons_append, List.length_cons, List.cons.injEq,
          Nat.succ_sub_succ] at h
        obtain ⟨hab, htail⟩ := h
        simp only [List.length_cons] at h1 h2
        have := ih as bs (by omega) (by omega)
          (fun hm => hp1 (List.mem_cons_of_mem a hm))
          (fun hm => hp2 (List.mem_cons_of_mem b hm)) htail
        rw [hab, this]

theorem key_segments_inj (t1 t2 : String) (l1 l2 : List String)
    (ht1 : ':' ∉ t1.data) (ht2 : ':' ∉ t2.data)
    (hc1 : ∀ v ∈ padTo6 l1, ':' ∉ v.data) (hc2 : ∀ v ∈ padTo6 l2, ':' ∉ v.data)
    (hkey : (convertRule t1 l1).Key = (convertRule t2 l2).Key) :
    t1 = t2 ∧ padTo6 l1 = padTo6 l2 := by
  rw [convertRule_key_eq, convertRule_key_eq] at hkey
  have hdata := congrArg String.data hkey
  rw [joinSep_data, joinSep_data] at hdata
  have hlists := cjoin_inj _ _ (by simp) ?_ ?_ hdata
  · have := List.map_injective_iff.mpr (fun a b hab => String.ext hab) hlists
    simp only [List.cons.injEq] at this
    exact this
  · intro u hu
    simp only [List.map_cons, List.mem_cons, List.mem_map] at hu
    rcases hu with h | ⟨v, hv, hvu⟩
    · exact h ▸ ht1
    · exact hvu ▸ hc1 v hv
  · intro u hu
    simp only [List.map_cons, List.mem_cons, List.mem_map] at hu
    rcases hu with h | ⟨v, hv, hvu⟩
    · exact h ▸ ht2
    · exact hvu ▸ hc2 v hv

@[simp] theorem convertRule_PType (t : String) (l : List String) :
    (convertRule t l).PType = t := rfl

@[simp] theorem convertRule_V0 (t : String) (l : List String) :
    (convertRule t l).V0 = l.getD 0 "" := by
  rcases l with _ | ⟨a, l⟩
  · rfl
  · show (if 0 < (a :: l).length then (a :: l).getD 0 "" else "") = (a :: l).getD 0 ""
    rw [if_pos (by simp only [List.length_cons]; omega)]

@[simp] theorem convertRule_V1 (t : String) (l : List String) :
    (convertRule t l).V1 = l.getD 1 "" := by
  rcases l with _ | ⟨a, _ | ⟨b, l⟩⟩
  · rfl
  · rfl
  · show (if 1 < (a :: b :: l).length then (a :: b :: l).getD 1 "" else "")
        = (a :: b :: l).getD 1 ""
    rw [if_pos (by simp only [List.length_cons]; omega)]

@[simp] theorem convertRule_V2 (t : String) (l : List String) :
    (convertRule t l).V2 = l.getD 2 "" := by
  rcases l with _ | ⟨a, _ | ⟨b, _ | ⟨c, l⟩⟩⟩
  · rfl
  · rfl
  · rfl
  · show (if 2 < (a :: b :: c :: l).length then (a :: b :: c :: l).getD 2 "" else "")
        = (a :: b :: c :: l).getD 2 ""
    rw [if_pos (by simp only [List.length_cons]; omega)]

@[simp] theorem convertRule_V3 (t : String) (l : List String) :
    (convertRule t l).V3 = l.getD 3 "" := by
  rcases l with _ | ⟨a, _ | ⟨b, _ | ⟨c, _ | ⟨d, l⟩⟩⟩⟩
  · rfl
  · rfl
  · rfl
  · rfl
  · show (if 3 < (a :: b :: c :: d :: l).length
          then (a :: b :: c :: d :: l).getD 3 "" else "")
        = (a :: b :: c :: d :: l).getD 3 ""
    rw [if_pos (by simp only [List.length_cons]; omega)]

@[simp] theorem convertRule_V4 (t : String) (l : List String) :
    (convertRule t l).V4 = l.getD 4 "" := by
  rcases l with _ | ⟨a, _ | ⟨b, _ | ⟨c, _ | ⟨d, _ | ⟨e, l⟩⟩⟩⟩⟩
  · rfl
  · rfl
  · rfl
  · rfl
  · rfl
  · show (if 4 < (a :: b :: c :: d :: e :: l).length
          then (a :: b :: c :: d :: e :: l).getD 4 "" else "")
        = (a :: b :: c :: d :: e :: l).getD 4 ""
    rw [if_pos (by simp only [List.length_cons]; omega)]

@[simp] theorem convertRule_V5 (t : String) (l : List String) :
    (convertRule t l).V5 = l.getD 5 "" := by
  rcases l with _ | ⟨a, _ | ⟨b, _ | ⟨c, _ | ⟨d, _ | ⟨e, _ | ⟨f, l⟩⟩⟩⟩⟩⟩
  · rfl
  · rfl
  · rfl
  · rfl
  · rfl
  · rfl
  · show (if 5 < (a :: b :: c :: d :: e :: f :: l).length
          then (a :: b :: c :: d :: e :: f :: l).getD 5 "" else "")
        = (a :: b :: c :: d :: e :: f :: l).getD 5 ""
    rw [if_pos (by simp only [List.length_cons]; omega)]

/-- **C1** (corrected).  Composite-key injectivity.  As stated the claim is
false: a field equal to the placeholder `"_"` collides with an absent field
(see `convertRule_placeholder_collision`), and a field containing a single
`':'` can shift the delimiter.  Amended: for rules with non-empty types, at
most six fields, no `':'` anywhere in the type or a field, and no field equal
to the placeholder, distinct `(type, fields)` pairs produce distinct composite
keys. -/
theorem convertRule_key_injective (t1 t2 : String) (l1 l2 : List String)
    (ht1e : t1 ≠ "") (ht2e : t2 ≠ "")
    (ht1 : ':' ∉ t1.data) (ht2 : ':' ∉ t2.data)
    (hl1 : l1.length ≤ 6) (hl2 : l2.length ≤ 6)
    (hf1 : ∀ v ∈ l1, ':' ∉ v.data ∧ v ≠ Placeholder)
    (hf2 : ∀ v ∈ l2, ':' ∉ v.data ∧ v ≠ Placeholder)
    (hkey : (convertRule t1 l1).Key = (convertRule t2 l2).Key) :
    t1 = t2 ∧ l1 = l2 := by
  have hph : ':' ∉ Placeholder.data := by decide
  have hc1 : ∀ v ∈ padTo6 l1, ':' ∉ v.data := by
    intro v hv
    rcases List.mem_append.mp hv with hm | hm
    · exact (hf1 v (List.take_subset 6 l1 hm)).1
    · exact List.eq_of_mem_replicate hm ▸ hph
  have hc2 : ∀ v ∈ padTo6 l2, ':' ∉ v.data := by
    intro v hv
    rcases List.mem_append.mp hv with hm | hm
    · exact (hf2 v (List.take_subset 6 l2 hm)).1
    · exact List.eq_of_mem_replicate hm ▸ hph
  obtain ⟨hteq, hpad⟩ := key_segments_inj t1 t2 l1 l2 ht1 ht2 hc1 hc2 hkey
  refine ⟨hteq, ?_⟩
  rw [padTo6, padTo6, List.take_of_length_le hl1, List.take_of_length_le hl2] at hpad
  exact unpad_inj 6 l1 l2 hl1 hl2
    (fun hm => (hf1 _ hm).2 rfl) (fun hm => (hf2 _ hm).2 rfl) hpad

theorem convertRule_key_injective_witness :
    "p" = "p" ∧ (["alice"] : List String) = ["alice"] :=
  convertRule_key_injective "p" "p" ["alice"] ["alice"]
    (by decide) (by decide) (by decide) (by decide) (by decide) (by decide)
    (by decide) (by decide) rfl

/-- **C1 counterexample**.  A rule whose first field is the placeholder token
`"_"` produces exactly the same composite key as the rule with no fields at
all, although the type `"p"` is non-empty and `"_"` does not contain the
delimiter `"::"`.  This contradicts the claim's requirement that such rules
never collide. -/
theorem convertRule_placeholder_collision :
    (convertRule "p" [Placeholder]).Key = (convertRule "p" []).Key ∧
    ([Placeholder] : List String) ≠ [] := by
  refine ⟨by decide, by decide⟩

theorem line_step (s v : String) :
    (if v ≠ "" then s ++ ", " ++ v else s) = s ++ optPart v := by
  by_cases h : v = "" <;> simp [optPart, h, String.append_assoc]

theorem loadPolicyLine_eq (r : CasbinRule) :
    loadPolicyLine r
      = r.PType ++ optPart r.V0 ++ optPart r.V1 ++ optPart r.V2
          ++ optPart r.V3 ++ optPart r.V4 ++ optPart r.V5 := by
  simp only [loadPolicyLine, line_step]

theorem parts_joinSep (t : String) (ws : List String) :
    t ++ partsCat ws = joinSep ", " (t :: ws.filter (fun v => v ≠ "")) := by
  induction ws generalizing t with
  | nil => simp [partsCat, joinSep]
  | cons v vs ih =>
    by_cases hv : v = ""
    · have hparts : partsCat (v :: vs) = partsCat vs := by
        simp [partsCat, optPart, hv]
      have hfil : (v :: vs).filter (fun v => v ≠ "") = vs.filter (fun v => v ≠ "") := by
        simp [List.filter_cons, hv]
      rw [hparts, hfil]
      exact ih t
    · have hfil : (v :: vs).filter (fun v => v ≠ "") =
          v :: vs.filter (fun v => v ≠ "") := by
        simp [List.filter_cons, hv]
      rw [hfil]
      have hjoin : joinSep ", " (t :: v :: vs.filter (fun v => v ≠ ""))
          = t ++ ", " ++ joinSep ", " (v :: vs.filter (fun v => v ≠ "")) := by
        rw [joinSep]
      rw [hjoin, ← ih v, partsCat, optPart, if_pos hv]
      simp [String.append_assoc]

theorem fields_filter (l : List String) (h : l.length ≤ 6) :
    [l.getD 0 "", l.getD 1 "", l.getD 2 "", l.getD 3 "",
      l.getD 4 "", l.getD 5 ""].filter (fun v => v ≠ "")
      = l.filter (fun v => v ≠ "") := by
  have hempty : (decide (("" : String) ≠ "")) = false := rfl
  rcases l with _ | ⟨a, _ | ⟨b, _ | ⟨c, _ | ⟨d, _ | ⟨e, _ | ⟨f, _ | ⟨g, rest⟩⟩⟩⟩⟩⟩⟩
  · simp [List.getD, List.filter, hempty]
  · simp [List.getD, List.filter, hempty]
  · simp [List.getD, List.filter, hempty]
  · simp [List.getD, List.filter, hempty]
  · simp [List.getD, List.filter, hempty]
  · simp [List.getD, List.filter, hempty]
  · simp [List.getD, List.filter, hempty]
  · simp only [List.length_cons] at h
    omega

/-- **C2** (corrected).  Encode/decode round-trip.  As stated the claim is
false: an empty *interior* field is dropped from the reconstructed line, not
preserved at its position (see `loadPolicyLine_interior_empty_dropped`).
Amended: for any rule with at most six fields, the line reconstructed by
`loadPolicy` is the type followed by exactly the *non-empty* fields in order,
comma-separated; hence re-ingestion reproduces the original rule precisely when
every empty field is trailing. -/
theorem encode_then_decode_line (t : String) (l : List String)
    (h : l.length ≤ 6) :
    loadPolicyLine (convertRule t l)
      = joinSep ", " (t :: l.filter (fun v => v ≠ "")) := by
  rw [loadPolicyLine_eq]
  simp only [convertRule_PType, convertRule_V0, convertRule_V1, convertRule_V2,
    convertRule_V3, convertRule_V4, convertRule_V5]
  rw [← fields_filter l h, ← parts_joinSep]
  simp [partsCat, String.append_assoc]

theorem encode_then_decode_line_witness :
    loadPolicyLine (convertRule "p" ["alice", "data1", "read"])
      = joinSep ", " ("p" :: ["alice", "data1", "read"].filter (fun v => v ≠ "")) :=
  encode_then_decode_line "p" ["alice", "data1", "read"] (by decide)

/-- **C2 counterexample**.  The rule `("p", ["", "x"])` has an empty interior
field; the reconstructed line is `"p, x"`, not the claimed
`"p, , x"` — the interior empty field is silently dropped, shifting `"x"` to
field position 0 on re-ingestion. -/
theorem loadPolicyLine_interior_empty_dropped :
    loadPolicyLine (convertRule "p" ["", "x"]) = "p, x" ∧
    loadPolicyLine (convertRule "p" ["", "x"]) ≠ joinSep ", " ["p", "", "x"] := by
  refine ⟨by decide, by decide⟩

theorem casbinRule_eq_of_fields (x y : CasbinRule)
    (hk : x.Key = y.Key) (hp : x.PType = y.PType)
    (h0 : x.V0 = y.V0) (h1 : x.V1 = y.V1) (h2 : x.V2 = y.V2)
    (h3 : x.V3 = y.V3) (h4 : x.V4 = y.V4) (h5 : x.V5 = y.V5) : x = y := by
  cases x; cases y; simp_all

theorem getD_of_take6_eq (l1 l2 : List String)
    (h1 : 6 ≤ l1.length) (h2 : 6 ≤ l2.length)
    (htake : l1.take 6 = l2.take 6) :
    ∀ i, i < 6 → l1.getD i "" = l2.getD i "" := by
  rcases l1 with _ | ⟨a, _ | ⟨b, _ | ⟨c, _ | ⟨d, _ | ⟨e, _ | ⟨f, r1⟩⟩⟩⟩⟩⟩ <;>
    simp at h1
  rcases l2 with _ | ⟨a', _ | ⟨b', _ | ⟨c', _ | ⟨d', _ | ⟨e', _ | ⟨f', r2⟩⟩⟩⟩⟩⟩ <;>
    simp at h2
  simp only [List.take, List.cons.injEq] at htake
  obtain ⟨ha, hb, hc, hd, he, hf, -⟩ := htake
  intro i hi
  interval_cases i <;> simp [List.getD, ha, hb, hc, hd, he, hf]

/-- **C9** (confirmed).  Fields beyond the sixth are silently dropped: when a
rule has more than six fields, only fields 0–5 enter the value record and the
composite key, no placeholder padding is added, and two rules of the same type
agreeing on their first six fields encode to the identical record and key. -/
theorem convertRule_truncates_beyond_six (t : String) (l1 l2 : List String)
    (h1 : 6 ≤ l1.length) (h2 : 6 ≤ l2.length) (htake : l1.take 6 = l2.take 6) :
    convertRule t l1 = convertRule t l2 ∧
    (convertRule t l1).Key = joinSep "::" (t :: l1.take 6) := by
  have hkey1 : (convertRule t l1).Key = joinSep "::" (t :: l1.take 6) := by
    rw [convertRule_key_eq, padTo6, Nat.sub_eq_zero_of_le h1]
    simp
  have hkey2 : (convertRule t l2).Key = joinSep "::" (t :: l2.take 6) := by
    rw [convertRule_key_eq, padTo6, Nat.sub_eq_zero_of_le h2]
    simp
  have hg := getD_of_take6_eq l1 l2 h1 h2 htake
  refine ⟨casbinRule_eq_of_fields _ _ ?_ rfl ?_ ?_ ?_ ?_ ?_ ?_, hkey1⟩
  · rw [hkey1, hkey2, htake]
  · simpa using hg 0 (by omega)
  · simpa using hg 1 (by omega)
  · simpa using hg 2 (by omega)
  · simpa using hg 3 (by omega)
  · simpa using hg 4 (by omega)
  · simpa using hg 5 (by omega)

theorem convertRule_truncates_beyond_six_witness :
    convertRule "p" ["a", "b", "c", "d", "e", "f", "g"]
      = convertRule "p" ["a", "b", "c", "d", "e", "f", "h"] ∧
    (convertRule "p" ["a", "b", "c", "d", "e", "f", "g"]).Key
      = joinSep "::" ("p" :: ["a", "b", "c", "d", "e", "f", "g"].take 6) :=
  convertRule_truncates_beyond_six "p" _ _ (by decide) (by decide) (by decide)

example : removeFilteredPolicyFilter ⟨"casbin_policy"⟩ "g" "" 0 ["alice"]
    = "/casbin_policy/.*::alice::.*::.*::.*::.*::.*" := by decide

theorem filter_base_eq (k pt : String) :
    (if pt ≠ "" then "/" ++ k ++ "/" ++ pt else "/" ++ k ++ "/.*")
      = "/" ++ k ++ "/" ++ (if pt = "" then ".*" else pt) := by
  have hsl : ("/" : String) ++ ".*" = "/.*" := by decide
  by_cases h : pt = "" <;> simp [h, hsl, String.append_assoc]

theorem filter_step_eq (s v : String) :
    (if v ≠ "" then s ++ "::" ++ v else s ++ "::.*")
      = s ++ "::" ++ (if v = "" then ".*" else v) := by
  have hsl : ("::" : String) ++ ".*" = "::.*" := by decide
  by_cases h : v = "" <;> simp [h, hsl, String.append_assoc]

theorem piece_reduce (c : Prop) [Decidable c] (v : String) :
    (if (if c then v else "") = "" then ".*" else (if c then v else ""))
      = if c then (if v = "" then ".*" else v) else ".*" := by
  by_cases hc : c <;> by_cases hv : v = "" <;> simp [hc, hv]

/-- **C4** (corrected).  Filter pattern construction.  As stated the claim is
false: a supplied value that is the empty string is indistinguishable from an
unspecified position and becomes a wildcard
(see `removeFilteredPolicyFilter_empty_value_wildcard`).  Amended: the built
pattern places the supplied value at position `i` exactly when
`fieldIndex ≤ i < fieldIndex + len(fieldValues)` *and* that value is
non-empty, a wildcard token at every other field position, and a wildcard at
the type position exactly when the supplied type is empty. -/
theorem removeFilteredPolicy_pattern (a : Adapter) (sec ptype : String)
    (fieldIndex : Int) (fieldValues : List String) :
    removeFilteredPolicyFilter a sec ptype fieldIndex fieldValues
      = specFilterOf a ptype fieldIndex fieldValues := by
  simp only [removeFilteredPolicyFilter, constructFilter, filterRuleOf,
    specFilterOf, List.map]
  rw [filter_base_eq, filter_step_eq, filter_step_eq, filter_step_eq,
    filter_step_eq, filter_step_eq, filter_step_eq]
  simp only [piece_reduce]
  simp [joinSep, String.append_assoc]

/-- **C4 counterexample**.  Calling filtered removal with the single supplied
value `""` at offset 0 produces the very same all-wildcard pattern as
supplying no values at all: the empty supplied value is treated as a
wildcard, not as a literal. -/
theorem removeFilteredPolicyFilter_empty_value_wildcard :
    removeFilteredPolicyFilter ⟨"casbin_policy"⟩ "p" "p" 0 [""]
      = removeFilteredPolicyFilter ⟨"casbin_policy"⟩ "p" "p" 0 [] ∧
    removeFilteredPolicyFilter ⟨"casbin_policy"⟩ "p" "p" 0 [""]
      = "/casbin_policy/p::.*::.*::.*::.*::.*::.*" := by
  refine ⟨by decide, by decide⟩

/-- **C3** (corrected).  Filtered-removal matching semantics.  As stated the
claim is false: matching is performed by interpreting the built pattern as a
regular expression over the whole key, so a specified value containing a
metacharacter does not match by string equality
(see `removeFilteredPolicy_regex_overmatch`).  Amended: matching is
unanchored regex matching of the constructed pattern; on the spec's concrete
instance — stored rules `(p, alice, data1, read)`, `(p, bob, data2, write)`,
`(g, alice, admin)`, empty type, offset 0, values `["alice"]` — exactly the
two keys whose field 0 is `"alice"` are selected for deletion and the bob
rule is left stored. -/
theorem removeFilteredPolicy_spec_instance :
    removeFilteredKeys
        (removeFilteredPolicyFilter ⟨"casbin_policy"⟩ "p" "" 0 ["alice"])
        [constructPath ⟨"casbin_policy"⟩ (convertRule "p" ["alice", "data1", "read"]).Key,
         constructPath ⟨"casbin_policy"⟩ (convertRule "p" ["bob", "data2", "write"]).Key,
         constructPath ⟨"casbin_policy"⟩ (convertRule "g" ["alice", "admin"]).Key]
      = [constructPath ⟨"casbin_policy"⟩ (convertRule "p" ["alice", "data1", "read"]).Key,
         constructPath ⟨"casbin_policy"⟩ (convertRule "g" ["alice", "admin"]).Key] := by
  decide

/-- **C3 counterexample**.  With the stored rule `(p, ["axc"])` and a
filtered removal specifying the literal `"a.c"` at field 0, the stored key is
selected for deletion even though `"axc" ≠ "a.c"`: the `.` in the supplied
value acts as a regex metacharacter, contradicting the claim that a literal
value matches only by string equality. -/
theorem removeFilteredPolicy_regex_overmatch :
    removeFilteredKeys (removeFilteredPolicyFilter ⟨"casbin_policy"⟩ "p" "p" 0 ["a.c"])
        [constructPath ⟨"casbin_policy"⟩ (convertRule "p" ["axc"]).Key]
      = [constructPath ⟨"casbin_policy"⟩ (convertRule "p" ["axc"]).Key] ∧
    ("a.c" : String) ≠ "axc" := by
  refine ⟨by decide, by decide⟩

/-- **C6** (confirmed).  Loading a namespace whose range read succeeds with
zero entries is an error, not a successful empty load, and no line is fed to
the model. -/
theorem loadPolicy_empty_is_error :
    LoadPolicy [] = Except.error "there is no policy in ETCD for the moment" := rfl

/-- **C5** (code bug).  `SavePolicy` calls `a.destroy()` as a bare statement
and discards the error it returns, so a failing phase-1 bulk range delete is
swallowed: with a store whose range delete fails (and whose puts succeed),
`SavePolicy` reports success, contradicting the spec's propagation policy. -/
theorem savePolicy_discards_destroy_error :
    SavePolicyResult
        ⟨some "etcdserver: request timed out", fun _ _ => none⟩
        ⟨"casbin_policy"⟩
        ([("p", [["alice", "data1", "read"]])], []) = none := rfl

/-- **C7** (confirmed).  `RemovePolicy` computes exactly the same full store
key as `AddPolicy` for the same arguments, and on any store in which that key
is absent, `AddPolicy` followed by `RemovePolicy` restores the store exactly. -/
theorem addPolicy_removePolicy_inverse (a : Adapter) (sec ptype : String)
    (line : List String) (s : Store)
    (h : s (removePolicyPath a ptype line) = none) :
    removePolicyPath a ptype line = addPolicyPath a ptype line ∧
    RemovePolicy a sec ptype line (AddPolicy a sec ptype line s) = s := by
  refine ⟨rfl, funext fun x => ?_⟩
  simp only [RemovePolicy, AddPolicy, Store.del, Store.put, addPolicyPath,
    removePolicyPath]
  simp only [removePolicyPath] at h
  by_cases hx : x = constructPath a (convertRule ptype line).Key
  · rw [if_pos hx, hx, h]
  · rw [if_neg hx, if_neg hx]

theorem addPolicy_removePolicy_inverse_witness :
    removePolicyPath ⟨"casbin_policy"⟩ "p" ["alice"]
      = addPolicyPath ⟨"casbin_policy"⟩ "p" ["alice"] ∧
    RemovePolicy ⟨"casbin_policy"⟩ "p" "p" ["alice"]
        (AddPolicy ⟨"casbin_policy"⟩ "p" "p" ["alice"] emptyStore)
      = emptyStore :=
  addPolicy_removePolicy_inverse ⟨"casbin_policy"⟩ "p" "p" ["alice"] emptyStore rfl

theorem list_isPre_append (l t : List Char) : l.isPrefixOf (l ++ t) = true := by
  induction l with
  | nil => simp [List.isPrefixOf]
  | cons c cs ih => simp [List.isPrefixOf, ih]

theorem root_pre_constructPath (a : Adapter) (k : String) :
    strHasPre (getRootKey a) (constructPath a k) = true := by
  show ((getRootKey a).data).isPrefixOf (constructPath a k).data = true
  have hsplit : constructPath a k = getRootKey a ++ ("/" ++ k) := by
    simp [constructPath, getRootKey, String.append_assoc]
  rw [hsplit, String.data_append]
  exact list_isPre_append _ _

theorem delRange_put_absorb (s : Store) (p k : String) (r : CasbinRule)
    (h : strHasPre p k = true) :
    Store.delRange (Store.put s k r) p = Store.delRange s p := by
  funext x
  by_cases hx : strHasPre p x = true
  · simp [Store.delRange, Store.put, hx]
  · have hxk : x ≠ k := fun he => hx (he ▸ h)
    simp [Store.delRange, Store.put, hx, hxk]

theorem delRange_putAll_absorb (a : Adapter) (rules : List CasbinRule) :
    ∀ s : Store, Store.delRange (putAll a rules s) (getRootKey a)
      = Store.delRange s (getRootKey a) := by
  induction rules with
  | nil => intro s; rfl
  | cons r rs ih =>
    intro s
    show Store.delRange (putAll a rs (s.put (constructPath a r.Key) r)) (getRootKey a)
      = Store.delRange s (getRootKey a)
    rw [ih, delRange_put_absorb _ _ _ _ (root_pre_constructPath a r.Key)]

theorem delRange_idem (s : Store) (p : String) :
    (s.delRange p).delRange p = s.delRange p := by
  funext x
  by_cases hx : strHasPre p x = true <;> simp [Store.delRange, hx]

theorem constructPath_inj (a : Adapter) (k1 k2 : String)
    (h : constructPath a k1 = constructPath a k2) : k1 = k2 := by
  have hd := congrArg String.data h
  simp only [constructPath, String.data_append, List.append_assoc] at hd
  exact String.ext
    (List.append_cancel_left (List.append_cancel_left (List.append_cancel_left hd)))

theorem put_comm (s : Store) (k1 k2 : String) (r1 r2 : CasbinRule)
    (h : k1 ≠ k2) : (s.put k1 r1).put k2 r2 = (s.put k2 r2).put k1 r1 := by
  funext x
  by_cases h1 : x = k1 <;> by_cases h2 : x = k2
  · exact absurd (h1.symm.trans h2) h
  · simp [Store.put, h1, h2, h, Ne.symm h]
  · simp [Store.put, h1, h2, h, Ne.symm h]
  · simp [Store.put, h1, h2, h, Ne.symm h]

theorem put_put_same (s : Store) (k : String) (r : CasbinRule) :
    (s.put k r).put k r = s.put k r := by
  funext x
  by_cases h : x = k <;> simp [Store.put, h]

theorem putAll_perm (a : Adapter) {rules1 rules2 : List CasbinRule}
    (hperm : rules1.Perm rules2) :
    (∀ r1 ∈ rules1, ∀ r2 ∈ rules1, r1.Key = r2.Key → r1 = r2) →
    ∀ s, putAll a rules1 s = putAll a rules2 s := by
  induction hperm with
  | nil => intro _ s; rfl
  | cons x hp ih =>
    intro hinj s
    exact ih
      (fun r1 h1 r2 h2 => hinj r1 (List.mem_cons_of_mem x h1)
        r2 (List.mem_cons_of_mem x h2))
      (s.put (constructPath a x.Key) x)
  | swap x y l =>
    intro hinj s
    show putAll a l ((s.put (constructPath a y.Key) y).put (constructPath a x.Key) x)
      = putAll a l ((s.put (constructPath a x.Key) x).put (constructPath a y.Key) y)
    by_cases hk : y.Key = x.Key
    · have hxy : y = x := hinj y (List.mem_cons_self y _)
        x (List.mem_cons_of_mem y (List.mem_cons_self x _)) hk
      rw [hxy]
    · have hpaths : constructPath a y.Key ≠ constructPath a x.Key :=
        fun hc => hk (constructPath_inj a _ _ hc)
      rw [put_comm s _ _ _ _ hpaths]
  | trans h1 h2 ih1 ih2 =>
    intro hinj s
    rw [ih1 hinj s, ih2
      (fun r1 hr1 r2 hr2 hk =>
        hinj r1 (h1.mem_iff.mpr hr1) r2 (h1.mem_iff.mpr hr2) hk) s]

/-- **C8** (corrected).  Idempotent save.  Re-running `SavePolicy` with the
same unchanged model leaves the same store, for *every* model, with no side
condition (first conjunct).  As stated, however, order-independence fails:
two rules may collide on the same composite key with different values (a
`"_"` field versus an absent field, see the counterexample below), and then
the last write wins.  Amended: the stored state is additionally independent
of the order of the model's rules provided rules with equal composite keys
are equal — which holds whenever no field is the placeholder (second
conjunct, the proviso scoping only this conjunct). -/
theorem savePolicy_idempotent_orderInsensitive (a : Adapter) (m1 m2 : Model)
    (s : Store) :
    SavePolicyStore a m1 (SavePolicyStore a m1 s) = SavePolicyStore a m1 s ∧
    ((rulesOf m1).Perm (rulesOf m2) →
      (∀ r1 ∈ rulesOf m1, ∀ r2 ∈ rulesOf m1, r1.Key = r2.Key → r1 = r2) →
      SavePolicyStore a m1 s = SavePolicyStore a m2 s) := by
  constructor
  · show putAll a (rulesOf m1)
        (Store.delRange (putAll a (rulesOf m1) (s.delRange (getRootKey a)))
          (getRootKey a))
      = putAll a (rulesOf m1) (s.delRange (getRootKey a))
    rw [delRange_putAll_absorb, delRange_idem]
  · intro hperm hinj
    exact putAll_perm a hperm hinj _

theorem savePolicy_idempotent_orderInsensitive_witness :
    (SavePolicyStore ⟨"casbin_policy"⟩ ([("p", [["_"], []])], [])
        (SavePolicyStore ⟨"casbin_policy"⟩ ([("p", [["_"], []])], []) emptyStore)
      = SavePolicyStore ⟨"casbin_policy"⟩ ([("p", [["_"], []])], []) emptyStore) ∧
    SavePolicyStore ⟨"casbin_policy"⟩ ([("p", [["a"], ["b"]])], []) emptyStore
      = SavePolicyStore ⟨"casbin_policy"⟩ ([("p", [["b"], ["a"]])], []) emptyStore :=
  ⟨(savePolicy_idempotent_orderInsensitive ⟨"casbin_policy"⟩
      ([("p", [["_"], []])], []) ([("p", [["_"], []])], []) emptyStore).1,
    (savePolicy_idempotent_orderInsensitive ⟨"casbin_policy"⟩
      ([("p", [["a"], ["b"]])], []) ([("p", [["b"], ["a"]])], []) emptyStore).2
      (by decide) (by decide)⟩

/-- **C8 counterexample**.  Two models that differ only in the order of the
two rules inside the `"p"` section — field list `["_"]` before `[]` versus
after — leave different values at the shared key
`/casbin_policy/p::_::_::_::_::_::_`, so the stored entry set does depend on
rule order within a type-section. -/
theorem savePolicy_order_dependent :
    SavePolicyStore ⟨"casbin_policy"⟩ ([("p", [["_"], []])], []) emptyStore
        "/casbin_policy/p::_::_::_::_::_::_"
      ≠ SavePolicyStore ⟨"casbin_policy"⟩ ([("p", [[], ["_"]])], []) emptyStore
        "/casbin_policy/p::_::_::_::_::_::_" := by decide

/-- **C10** (confirmed).  `LoadPolicy` unmarshals every stored value into one
shared `rule` variable: a field absent from a later value retains the value
decoded from an earlier entry (first conjunct), values carrying the full
field set are decoded independently of that state (second conjunct), and
concretely, after a full entry `(k1, p, a, b, c)`, the partial value
`{ptype: p, v1: x}` is fed to the model as the line `"p, a, x, c"`,
inheriting `a` and `c` from the earlier entry. -/
theorem loadPolicy_shared_rule_state (prev prev2 : CasbinRule) (j jf : JsonRule)
    (h0 : j.v0 = none)
    (hf : jf.key.isSome = true ∧ jf.ptype.isSome = true ∧ jf.v0.isSome = true ∧
      jf.v1.isSome = true ∧ jf.v2.isSome = true ∧ jf.v3.isSome = true ∧
      jf.v4.isSome = true ∧ jf.v5.isSome = true) :
    (unmarshalInto prev j).V0 = prev.V0 ∧
    unmarshalInto prev jf = unmarshalInto prev2 jf ∧
    LoadPolicy
        [⟨some "p::a::b::c::_::_::_", some "p", some "a", some "b", some "c",
          some "", some "", some ""⟩,
         ⟨none, some "p", none, some "x", none, none, none, none⟩]
      = Except.ok ["p, a, b, c", "p, a, x, c"] := by
  refine ⟨?_, ?_, ?_⟩
  · simp [unmarshalInto, h0]
  · obtain ⟨h1, h2, h3, h4, h5, h6, h7, h8⟩ := hf
    obtain ⟨x1, e1⟩ := Option.isSome_iff_exists.mp h1
    obtain ⟨x2, e2⟩ := Option.isSome_iff_exists.mp h2
    obtain ⟨x3, e3⟩ := Option.isSome_iff_exists.mp h3
    obtain ⟨x4, e4⟩ := Option.isSome_iff_exists.mp h4
    obtain ⟨x5, e5⟩ := Option.isSome_iff_exists.mp h5
    obtain ⟨x6, e6⟩ := Option.isSome_iff_exists.mp h6
    obtain ⟨x7, e7⟩ := Option.isSome_iff_exists.mp h7
    obtain ⟨x8, e8⟩ := Option.isSome_iff_exists.mp h8
    simp [unmarshalInto, e1, e2, e3, e4, e5, e6, e7, e8]
  · rfl

theorem loadPolicy_shared_rule_state_witness :
    (unmarshalInto zeroRule ⟨none, none, none, none, none, none, none, none⟩).V0
      = zeroRule.V0 ∧
    unmarshalInto zeroRule
        ⟨some "k", some "p", some "a", some "b", some "c", some "d", some "e", some "f"⟩
      = unmarshalInto (convertRule "p" ["q"])
        ⟨some "k", some "p", some "a", some "b", some "c", some "d", some "e", some "f"⟩ ∧
    LoadPolicy
        [⟨some "p::a::b::c::_::_::_", some "p", some "a", some "b", some "c",
          some "", some "", some ""⟩,
         ⟨none, some "p", none, some "x", none, none, none, none⟩]
      = Except.ok ["p, a, b, c", "p, a, x, c"] :=
  loadPolicy_shared_rule_state zeroRule (convertRule "p" ["q"])
    ⟨none, none, none, none, none, none, none, none⟩
    ⟨some "k", some "p", some "a", some "b", some "c", some "d", some "e", some "f"⟩
    rfl (by decide)

end EtcdAdapter
